import Mathlib

/-!
# Verification of the smart-spend backend core

Shallow embedding of the categorization core of the `smart-spend` backend
(`app/services/ai_service.py`, `app/services/worker.py`,
`app/routers/transactions.py`, `app/models/models.py`) together with
theorems settling the specification claims.

Modelling conventions:
* Python strings are Lean `String`s; character classes (`\b` word
  characters, `str.lower`, `str.strip`) are modelled at ASCII precision,
  which covers every input appearing in the claims and their witnesses.
* Machine floats are modelled by an inductive `PyFloat` over `Rat`
  (IEEE rounding is not modelled; the claims only mention the value 0).
* The database, the remote classifier and the clock are external
  collaborators: they enter the model as explicit arguments (the rule
  rows loaded by the worker, a `classify : String → String` oracle, a
  `now` timestamp, and a per-row persistence-success predicate).
* Stdlib calls (`re.sub` with the fixed PII pattern, `uuid.UUID`,
  `float`, `datetime.fromisoformat`) are translated into executable Lean
  functions reproducing CPython's behaviour on the modelled character
  ranges.
-/

namespace SmartSpend

/-! ## Character classes (ASCII fragment of Python's `\w`, `str.strip`, `str.lower`) -/

/-- Python regex word character (`\w`), ASCII fragment: letters, digits, underscore. -/
def isWordChar (c : Char) : Bool := c.isAlphanum || c = '_'

/-- Separator characters admitted inside a PII run by the pattern `[ -]`. -/
def isSepChar (c : Char) : Bool := c = ' ' || c = '-'

/-- ASCII decimal digit (`\d`, ASCII fragment). -/
def isDigitChar (c : Char) : Bool := c.isDigit

/-- Whitespace stripped by Python's `str.strip()` / `int()` / `float()`
(ASCII fragment: space, tab, newline, carriage return, vertical tab, form feed). -/
def isPySpace (c : Char) : Bool :=
  c = ' ' || c = '\t' || c = '\n' || c = '\r' || c = '\x0b' || c = '\x0c'

/-- Python `str.strip()` on the modelled (ASCII) whitespace. -/
def pyStrip (s : String) : String :=
  ⟨(s.data.dropWhile isPySpace).reverse.dropWhile isPySpace |>.reverse⟩

/-- Python `str.lower()`, ASCII fragment (mapped by Lean's `Char.toLower`). -/
def pyLower (s : String) : String := ⟨s.data.map Char.toLower⟩

/-- Python `needle in hay` on strings: substring occurrence (the empty
needle occurs in everything). -/
def containsSub (needle : List Char) : List Char → Bool
  | [] => needle.isEmpty
  | c :: rest => needle.isPrefixOf (c :: rest) || containsSub needle rest

/-! ## PII sanitizer — `sanitize_description` (`ai_service.py:11-23`)

The source is `re.sub(r"\b(?:\d[ -]*?){7,16}\b", "[REDACTED]", description)`.
The functions below reproduce CPython's backtracking search for this
pattern.  A match attempt at a digit standing at a word boundary proceeds
in two phases:

* while fewer than 7 digits have been consumed the engine may cross
  separator characters (the lazy `[ -]*?` is forced to expand because the
  `{7,16}` counter cannot stop below 7);
* from the 7th digit on, the engine prefers stopping over expanding the
  lazy separator, and a word boundary holds exactly when the next
  character is not a word character — so the match extends over further
  digits only while they are adjacent, and ends at the first non-word
  character (succeeding) or fails upon a letter/underscore or a 17th
  adjacent digit.

`re.sub` scans left to right and resumes after each replaced match. -/

/-- Match phase 2 (digits 7..16 consumed so far, `count` of them): returns the
number of further characters consumed by a successful match, or `none`. -/
def piiTail (count : Nat) : List Char → Option Nat
  | [] => some 0
  | c :: cs =>
    if isDigitChar c then
      if count < 16 then (piiTail (count + 1) cs).map (· + 1) else none
    else if isWordChar c then none
    else some 0

/-- Match phase 1 (fewer than 7 digits consumed): separators are crossed only
to reach a further digit; reaching the 7th digit switches to `piiTail`. -/
def piiHead (count : Nat) : List Char → Option Nat
  | [] => none
  | c :: cs =>
    if isDigitChar c then
      (if count + 1 = 7 then piiTail 7 cs else piiHead (count + 1) cs).map (· + 1)
    else if isSepChar c then (piiHead count cs).map (· + 1)
    else none

/-- Attempt to match the PII pattern at the head of `cs` (the word boundary
before the head is the caller's responsibility).  Returns the length of the
matched prefix. -/
def piiMatch (cs : List Char) : Option Nat :=
  match cs with
  | c :: _ => if isDigitChar c then piiHead 0 cs else none
  | [] => none

/-- The fixed redaction marker. -/
def redacted : List Char := "[REDACTED]".data

/-- Left-to-right scan of `re.sub`: at every position whose predecessor is not
a word character (`prevWord = false`) and whose head is a digit, try the
pattern; on success emit the marker and resume after the match (whose last
character is always a digit, so `prevWord` becomes `true`).  `fuel` only
bounds the recursion; any `fuel ≥ cs.length` computes the result. -/
def piiSub (fuel : Nat) (prevWord : Bool) (cs : List Char) : List Char :=
  match fuel, cs with
  | _, [] => []
  | 0, cs => cs
  | fuel + 1, c :: rest =>
    if !prevWord && isDigitChar c then
      match piiMatch (c :: rest) with
      | some n => redacted ++ piiSub fuel true (List.drop n (c :: rest))
      | none => c :: piiSub fuel (isWordChar c) rest
    else
      c :: piiSub fuel (isWordChar c) rest

/-- Model of `sanitize_description` (`ai_service.py:16-23`): mask any 7–16 digit
sequence (optionally space/hyphen separated, word-boundary delimited) with
`[REDACTED]`.  Total on `String`; the Python non-string pass-through branch
is outside the typed model. -/
def sanitize_description (description : String) : String :=
  ⟨piiSub description.data.length false description.data⟩

/-- Characterization of the digit runs the pattern consumes in full, with
`count` digits already consumed: digits throughout, separators permitted
only among the first seven digits, final digit count between 7 and 16.
(`runOk 0 r` describes exactly the runs that, at a word boundary and
followed by a non-word character, are matched whole and replaced.) -/
def runOk (count : Nat) : List Char → Bool
  | [] => decide (7 ≤ count) && decide (count ≤ 16)
  | c :: cs =>
    if isDigitChar c then decide (count + 1 ≤ 16) && runOk (count + 1) cs
    else if isSepChar c then decide (1 ≤ count) && decide (count < 7) && runOk count cs
    else false

/-- The first character after a fully matched run: empty, or non-word. -/
def headNonWord : List Char → Prop
  | [] => True
  | c :: _ => isWordChar c = false

/-! ## External classifier client — `predict_category` (`ai_service.py:26-87`)

The HF token comes from `settings.HF_TOKEN` (empty string when not
configured: `if not settings.HF_TOKEN`).  The network interaction is an
external collaborator, modelled as a `NetResult` argument; the JSON body is
a small JSON value type.  Python's dynamic operations in the success check
(`"labels" in result[0]`, `len`, indexing) are reproduced, with every raised
exception landing in the broad `except` that returns `"Uncategorized"`. -/

/-- JSON values as decoded by `response.json()`. -/
inductive Json where
  | null : Json
  | bool : Bool → Json
  | num : Int → Json
  | str : String → Json
  | arr : List Json → Json
  | obj : List (String × Json) → Json

/-- Outcome of the `httpx` POST: a transport-level exception, or a response
with a status code and a body (`none` when `response.json()` fails). -/
inductive NetResult where
  | transportError : NetResult
  | response : Nat → Option Json → NetResult

/-- Python `x in y` for `y = result[0]`: key membership on dicts, substring
on strings, element membership on lists; `none` models a `TypeError`. -/
def pyContains (needle : String) : Json → Option Bool
  | .obj kvs => some (kvs.any (fun kv => kv.1 = needle))
  | .str s => some (containsSub needle.data s.data)
  | .arr xs => some (xs.any (fun x => match x with | .str t => t = needle | _ => false))
  | _ => none

/-- Python `len(x)`: `none` models a `TypeError`. -/
def pyLen : Json → Option Nat
  | .str s => some s.length
  | .arr xs => some xs.length
  | .obj kvs => some kvs.length
  | _ => none

/-- Python `x["labels"]` / `x[0]`: dict lookup for objects; for
`x[0]`-style integer indexing, strings yield their first character and lists
their head; `none` models a `TypeError`/`KeyError`/`IndexError`. -/
def pyIndexStr (key : String) : Json → Option Json
  | .obj kvs => (kvs.find? (fun kv => kv.1 = key)).map (·.2)
  | _ => none

/-- Python `x[0]`. -/
def pyIndexZero : Json → Option Json
  | .arr (x :: _) => some x
  | .str s =>
    match s.data with
    | c :: _ => some (.str ⟨[c]⟩)
    | [] => none
  | _ => none

/-- The success-shape check and extraction of `ai_service.py:75-84`:
`isinstance(result, list) and len(result) > 0 and "labels" in result[0] and
len(result[0]["labels"]) > 0` followed by `return result[0]["labels"][0]`.
Any `TypeError` raised along the way is caught by the enclosing `except`
and also yields `"Uncategorized"`. -/
def extractLabel (body : Json) : Json :=
  match body with
  | .arr (first :: _) =>
    match pyContains "labels" first with
    | some true =>
      match pyIndexStr "labels" first with
      | some labels =>
        match pyLen labels with
        | some (_ + 1) =>
          match pyIndexZero labels with
          | some v => v
          | none => .str "Uncategorized"
        | _ => .str "Uncategorized"
      | none => .str "Uncategorized"
    | _ => .str "Uncategorized"
  | _ => .str "Uncategorized"

/-- Model of `predict_category` (`ai_service.py:26-87`).  Returns the produced value
together with a flag recording whether the network request was issued.
(The Python annotation promises `str`, but the success path returns whatever
JSON value sits at `result[0]["labels"][0]`, hence the `Json` codomain.) -/
def predict_category (hfToken : String) (net : NetResult) : Json × Bool :=
  if hfToken = "" then (.str "Uncategorized", false)
  else
    match net with
    | .transportError => (.str "Uncategorized", true)
    | .response status body =>
      if status < 200 || 300 ≤ status then (.str "Uncategorized", true)
      else
        match body with
        | none => (.str "Uncategorized", true)
        | some b => (extractLabel b, true)

/-! ## `uuid.UUID(str)` validity (CPython `uuid.py`)

`UUID(hex)` removes every occurrence of `urn:` and of `uuid:`, strips `{`
and `}` from both ends, removes hyphens, requires the remaining string to
have length 32, parses it with `int(_, 16)` and requires the value to lie
in `[0, 2^128)`.  `int(_, 16)` tolerates surrounding whitespace, one sign,
an optional `0x`/`0X` prefix, and single underscores between hex digits
(also one directly after the prefix). -/

/-- Remove every (non-overlapping, left-to-right) occurrence of `pat`
(Python `str.replace(pat, "")`).  `fuel ≥ cs.length` computes the result. -/
def removeAll (pat : List Char) (fuel : Nat) (cs : List Char) : List Char :=
  match fuel, cs with
  | _, [] => []
  | 0, cs => cs
  | fuel + 1, c :: rest =>
    if pat ≠ [] && pat.isPrefixOf (c :: rest) then
      removeAll pat fuel (List.drop pat.length (c :: rest))
    else
      c :: removeAll pat fuel rest

/-- Python `str.strip("{}")`. -/
def stripBraces (cs : List Char) : List Char :=
  ((cs.dropWhile (fun c => c = '{' || c = '}')).reverse.dropWhile
    (fun c => c = '{' || c = '}')).reverse

/-- Hex digit test. -/
def isHexChar (c : Char) : Bool :=
  c.isDigit || ('a' ≤ c && c ≤ 'f') || ('A' ≤ c && c ≤ 'F')

/-- Accumulating hex parser: `hexCore acc ds` parses `ds` as hex digits with
single underscores between digits, continuing the accumulator `acc`. -/
def hexCore (acc : Nat) : List Char → Option Nat
  | [] => some acc
  | '_' :: c :: cs =>
    if isHexChar c then hexCore (acc * 16 + hexVal c) cs else none
  | '_' :: [] => none
  | c :: cs =>
    if isHexChar c then hexCore (acc * 16 + hexVal c) cs else none
where
  hexVal (c : Char) : Nat :=
    if c.isDigit then c.toNat - '0'.toNat
    else if 'a' ≤ c && c ≤ 'f' then c.toNat - 'a'.toNat + 10
    else c.toNat - 'A'.toNat + 10

/-- Python `int(s, 16)` on the modelled ASCII range: optional whitespace,
optional sign, optional `0x` prefix (after which one underscore is
allowed), at least one hex digit, single underscores only between digits,
optional trailing whitespace. -/
def pyInt16 (s : List Char) : Option Int :=
  let t := s.dropWhile isPySpace
  let (neg, t) :=
    match t with
    | '+' :: rest => (false, rest)
    | '-' :: rest => (true, rest)
    | _ => (false, t)
  let t := t.reverse.dropWhile isPySpace |>.reverse
  let core :=
    match t with
    | '0' :: x :: rest =>
      if x = 'x' || x = 'X' then
        match rest with
        | '_' :: rest' => rest'
        | _ => rest
      else t
    | _ => t
  match core with
  | [] => none
  | c :: cs =>
    if isHexChar c then
      match hexCore (hexCore.hexVal c) cs with
      | some n => some (if neg then -(n : Int) else (n : Int))
      | none => none
    else none

/-- Whether `uuid.UUID(str(user_id))` succeeds (`worker.py:46-51`). -/
def pyUUIDValid (s : String) : Bool :=
  let t := removeAll "urn:".data s.data.length s.data
  let t := removeAll "uuid:".data t.length t
  let t := stripBraces t
  let t := t.filter (fun c => c ≠ '-')
  if t.length = 32 then
    match pyInt16 t with
    | some n => decide (0 ≤ n ∧ n < (2 : Int) ^ 128)
    | none => false
  else false

/-! ## `float(x)` (CPython) — amount parsing (`worker.py:78`)

Values are modelled as exact rationals plus the infinity/NaN sentinels
(IEEE rounding is not modelled; no claim depends on rounding). -/

/-- A value of Python's `float` type. -/
inductive PyFloat where
  | finite : Rat → PyFloat
  | inf : Bool → PyFloat
  | nan : PyFloat
deriving DecidableEq, Repr

/-- Continuation of a digit sequence: further digits, with single
underscores strictly between digits. -/
def digitsUCont : List Char → List Char × List Char
  | '_' :: c :: rest =>
    if c.isDigit then
      let (d, r) := digitsUCont rest
      (c :: d, r)
    else ([], '_' :: c :: rest)
  | c :: rest =>
    if c.isDigit then
      let (d, r) := digitsUCont rest
      (c :: d, r)
    else ([], c :: rest)
  | [] => ([], [])

/-- Parse a digit sequence that must start with a digit, allowing single
underscores strictly between digits; returns the digits (underscores
removed) and the rest. -/
def digitsU (cs : List Char) : List Char × List Char :=
  match cs with
  | c :: rest =>
    if c.isDigit then
      let (d, r) := digitsUCont rest
      (c :: d, r)
    else ([], cs)
  | [] => ([], [])

/-- Numeric value of a digit list. -/
def digitsVal (ds : List Char) : Nat :=
  ds.foldl (fun acc c => acc * 10 + (c.toNat - '0'.toNat)) 0

/-- Python `float(s)` on the modelled ASCII range: optional whitespace and
sign; `inf`/`infinity`/`nan` (case-insensitive); otherwise a decimal literal
`[digits][.digits][e[sign]digits]` with at least one mantissa digit and
single underscores only between digits. -/
def pyFloatParse (s : String) : Option PyFloat :=
  let t := (s.data.dropWhile isPySpace).reverse.dropWhile isPySpace |>.reverse
  let (neg, t) :=
    match t with
    | '+' :: rest => (false, rest)
    | '-' :: rest => (true, rest)
    | _ => (false, t)
  let low := t.map Char.toLower
  if low = "inf".data || low = "infinity".data then some (.inf neg)
  else if low = "nan".data then some .nan
  else
    let (intDs, r1) := digitsU t
    let (fracDs, r2) :=
      match r1 with
      | '.' :: rest => digitsU rest
      | _ => ([], r1)
    let r2 := match r1 with | '.' :: _ => r2 | _ => r1
    if intDs.isEmpty && fracDs.isEmpty then none
    else
      let mantissa : Rat :=
        (digitsVal intDs : Rat) + (digitsVal fracDs : Rat) / ((10 : Rat) ^ fracDs.length)
      match r2 with
      | [] => some (.finite (if neg then -mantissa else mantissa))
      | e :: rest =>
        if e = 'e' || e = 'E' then
          let (eneg, rest) :=
            match rest with
            | '+' :: rr => (false, rr)
            | '-' :: rr => (true, rr)
            | _ => (false, rest)
          let (expDs, r3) := digitsU rest
          if expDs.isEmpty || !r3.isEmpty then none
          else
            let q := mantissa * (10 : Rat) ^ ((if eneg then -1 else 1) * (digitsVal expDs : Int))
            some (.finite (if neg then -q else q))
        else none

/-! ## `datetime.fromisoformat` — date parsing (`worker.py:67-76`)

Modelled for the canonical ISO forms: `YYYY-MM-DD`, optionally followed by
`'T'`/`' '`, `HH:MM[:SS[.ffffff]]`, optionally a `±HH:MM` offset
(fractions of 1–6 digits; the exotic CPython ≥3.11 short forms are not
modelled — no claim mentions them). -/

/-- A `datetime.datetime` value: wall-clock fields plus an optional UTC
offset in minutes (`tzinfo`). -/
structure PyDateTime where
  year : Nat
  month : Nat
  day : Nat
  hour : Nat
  minute : Nat
  second : Nat
  microsecond : Nat
  tzMinutes : Option Int
deriving DecidableEq, Repr

/-- Model of `d.replace(tzinfo=None)`. -/
def stripTz (d : PyDateTime) : PyDateTime := { d with tzMinutes := none }

/-- Gregorian leap year. -/
def isLeap (y : Nat) : Bool := (y % 4 = 0 && y % 100 ≠ 0) || y % 400 = 0

/-- Days in a month. -/
def daysInMonth (y m : Nat) : Nat :=
  if m = 2 then (if isLeap y then 29 else 28)
  else if m = 4 || m = 6 || m = 9 || m = 11 then 30
  else 31

/-- Two fixed-width digit fields. -/
def read2 : List Char → Option (Nat × List Char)
  | a :: b :: rest =>
    if a.isDigit && b.isDigit then
      some ((a.toNat - '0'.toNat) * 10 + (b.toNat - '0'.toNat), rest)
    else none
  | _ => none

/-- Four fixed-width digit fields. -/
def read4 : List Char → Option (Nat × List Char)
  | a :: b :: c :: d :: rest =>
    if a.isDigit && b.isDigit && c.isDigit && d.isDigit then
      some ((((a.toNat - '0'.toNat) * 10 + (b.toNat - '0'.toNat)) * 10 +
        (c.toNat - '0'.toNat)) * 10 + (d.toNat - '0'.toNat), rest)
    else none
  | _ => none

/-- Fraction digits (1–6) after the decimal point, scaled to microseconds. -/
def readFrac (cs : List Char) : Option (Nat × List Char) :=
  let ds := cs.takeWhile Char.isDigit
  let rest := cs.dropWhile Char.isDigit
  if 1 ≤ ds.length && ds.length ≤ 6 then
    some (digitsVal ds * 10 ^ (6 - ds.length), rest)
  else none

/-- Parse the optional time-of-day and offset part. -/
def readTime (cs : List Char) : Option (Nat × Nat × Nat × Nat × Option Int) :=
  match read2 cs with
  | none => none
  | some (h, rest) =>
    match rest with
    | ':' :: rest =>
      match read2 rest with
      | none => none
      | some (mi, rest) =>
        let (sec, usec, rest) :=
          match rest with
          | ':' :: rest' =>
            match read2 rest' with
            | some (s, rest'') =>
              match rest'' with
              | '.' :: rest3 =>
                match readFrac rest3 with
                | some (us, rest4) => (some s, us, rest4)
                | none => (none, 0, '.' :: rest3)
              | _ => (some s, 0, rest'')
            | none => (none, 0, ':' :: rest')
          | _ => (some 0, 0, rest)
        match sec with
        | none => none
        | some s =>
          let tz : Option (Option Int × List Char) :=
            match rest with
            | [] => some (none, [])
            | sgn :: rest' =>
              if sgn = '+' || sgn = '-' then
                match read2 rest' with
                | some (oh, ':' :: rest'') =>
                  match read2 rest'' with
                  | some (om, rest3) =>
                    if oh < 24 && om < 60 then
                      some (some ((if sgn = '-' then -1 else 1) * (oh * 60 + om : Nat)), rest3)
                    else none
                  | none => none
                | _ => none
              else none
          match tz with
          | some (off, []) =>
            if h < 24 && mi < 60 && s < 60 then some (h, mi, s, usec, off) else none
          | _ => none
    | _ => none

/-- Model of `datetime.datetime.fromisoformat` on the modelled forms. -/
def pyFromIso (s : String) : Option PyDateTime :=
  match read4 s.data with
  | none => none
  | some (y, rest) =>
    match rest with
    | '-' :: rest =>
      match read2 rest with
      | none => none
      | some (m, rest) =>
        match rest with
        | '-' :: rest =>
          match read2 rest with
          | none => none
          | some (d, rest) =>
            if 1 ≤ m && m ≤ 12 && 1 ≤ d && d ≤ daysInMonth y m then
              match rest with
              | [] => some ⟨y, m, d, 0, 0, 0, 0, none⟩
              | sep :: rest =>
                if sep = 'T' || sep = ' ' then
                  match readTime rest with
                  | some (h, mi, sec, us, off) => some ⟨y, m, d, h, mi, sec, us, off⟩
                  | none => none
                else none
            else none
        | _ => none
    | _ => none

/-! ## Data model rows (`models.py`) -/

/-- A `categorization_rules` row (`models.py:40-49`); the database enforces
the uniqueness constraint `uq_user_keyword` on `(user_id, keyword)`. -/
structure CategoryRuleRec where
  user_id : String
  keyword : String
  category : String
deriving DecidableEq, Repr

/-- A persisted `transactions` row (`models.py:57-73`). -/
structure StoredTx where
  id : Nat
  user_id : String
  date : PyDateTime
  amount : PyFloat
  original_description : Option String
  clean_description : Option String
  category : Option String
  is_reviewed : Bool
deriving DecidableEq, Repr

/-! ## Batch job processor — `process_csv_job` (`worker.py:22-118`)

External collaborators enter as arguments: `rules` is the result of the
per-user `CategoryRule` query, `classify` is the awaited
`predict_category`, `now` is `datetime.utcnow()`, and `persistOk i` tells
whether the `db.add`/`db.commit` pair for row `i` succeeds (a persistence
failure raises and is caught by the per-row handler). -/

/-- A CSV row: the six `dict.get` keys the worker reads.  A missing key is
`none` (Python `None`). -/
structure RawRow where
  description : Option String
  descriptionUp : Option String
  date : Option String
  dateUp : Option String
  amount : Option String
  amountUp : Option String
deriving DecidableEq, Repr

/-- Python `a or b or default` over optional strings (`None` and `""` are
falsy). -/
def orStr (a b : Option String) (dflt : String) : String :=
  match a with
  | some s =>
    if s ≠ "" then s
    else match b with
      | some t => if t ≠ "" then t else dflt
      | none => dflt
  | none =>
    match b with
    | some t => if t ≠ "" then t else dflt
    | none => dflt

/-- Python `a or b or None` over optional strings. -/
def orOpt (a b : Option String) : Option String :=
  match a with
  | some s =>
    if s ≠ "" then some s
    else match b with
      | some t => if t ≠ "" then some t else none
      | none => none
  | none =>
    match b with
    | some t => if t ≠ "" then some t else none
    | none => none

/-- Insert into a Python dict modelled as an insertion-ordered association
list: overwriting keeps the original position. -/
def dictInsert : List (String × String) → String → String → List (String × String)
  | [], k, v => [(k, v)]
  | (k', v') :: rest, k, v =>
    if k' = k then (k', v) :: rest else (k', v') :: dictInsert rest k v

/-- Line `worker.py:57`: `{r.keyword.lower(): r.category for r in rules}`. -/
def buildRules (rules : List CategoryRuleRec) : List (String × String) :=
  rules.foldl (fun d r => dictInsert d (pyLower r.keyword) r.category) []

/-- The column values the worker hands to `Transaction(...)`
(`worker.py:90-97`); the `id` and the `is_reviewed` default are assigned by
the database. -/
structure NewTx where
  user_id : String
  date : PyDateTime
  original_description : String
  clean_description : String
  amount : PyFloat
  category : String
deriving DecidableEq, Repr

/-- The observable outcome of one loop iteration: the persisted row (if
any), whether `predict_category` was awaited, and the text sent to it. -/
structure RowOutcome where
  tx : Option NewTx
  classifierCalled : Bool
  classifierInput : Option String
deriving DecidableEq, Repr

/-- Line `worker.py:63`: `tx.get("description") or tx.get("Description") or ""`. -/
def rowOriginalDesc (row : RawRow) : String :=
  orStr row.description row.descriptionUp ""

/-- Line `worker.py:64`: the sanitized description. -/
def rowCleanDesc (row : RawRow) : String :=
  sanitize_description (rowOriginalDesc row)

/-- Lines `worker.py:67-76`: the transaction date (current time on a missing or
unparseable value, offset stripped otherwise). -/
def rowDate (now : PyDateTime) (row : RawRow) : PyDateTime :=
  match orOpt row.date row.dateUp with
  | some ds =>
    match pyFromIso ds with
    | some d => stripTz d
    | none => now
  | none => now

/-- Line `worker.py:78`: `float(tx.get("amount") or tx.get("Amount") or 0.0)`;
`none` models the `ValueError` that aborts the row. -/
def rowAmountRes (row : RawRow) : Option PyFloat :=
  match orOpt row.amount row.amountUp with
  | none => some (.finite 0)
  | some s => pyFloatParse s

/-- Lines `worker.py:81-85`: first rule (in dict order) whose keyword occurs in
the lowercased clean description. -/
def findMatchingRule (rulesDict : List (String × String)) (row : RawRow) :
    Option (String × String) :=
  rulesDict.find? (fun kv => containsSub kv.1.data (pyLower (rowCleanDesc row)).data)

/-- One iteration of the row loop (`worker.py:61-115`).  A `float`
`ValueError` aborts the row before the rule scan; a persistence failure
aborts it after the category was produced; both are caught by the per-row
`except` (the row is skipped). -/
def processRow (userId : String) (rulesDict : List (String × String))
    (classify : String → String) (now : PyDateTime) (persistOk : Bool)
    (row : RawRow) : RowOutcome :=
  let original_desc := rowOriginalDesc row
  let clean_desc := rowCleanDesc row
  let date := rowDate now row
  match rowAmountRes row with
  | none => ⟨none, false, none⟩
  | some amount =>
    match findMatchingRule rulesDict row with
    | some (_, cat) =>
      if cat ≠ "" then
        ⟨if persistOk then some ⟨userId, date, original_desc, clean_desc, amount, cat⟩
          else none, false, none⟩
      else
        let cat := classify clean_desc
        ⟨if persistOk then some ⟨userId, date, original_desc, clean_desc, amount, cat⟩
          else none, true, some clean_desc⟩
    | none =>
      let cat := classify clean_desc
      ⟨if persistOk then some ⟨userId, date, original_desc, clean_desc, amount, cat⟩
        else none, true, some clean_desc⟩

/-- The row loop: failed rows are skipped (`continue`), successful rows are
committed one by one. -/
def processRows (userId : String) (rulesDict : List (String × String))
    (classify : String → String) (now : PyDateTime) (persistOk : Nat → Bool) :
    Nat → List RawRow → List NewTx
  | _, [] => []
  | i, row :: rest =>
    match (processRow userId rulesDict classify now (persistOk i) row).tx with
    | some t => t :: processRows userId rulesDict classify now persistOk (i + 1) rest
    | none => processRows userId rulesDict classify now persistOk (i + 1) rest

/-- Model of `process_csv_job` (`worker.py:22-118`): returns the job's boolean result
together with the list of persisted transactions.  `rules` is what the
`CategoryRule` query for this user returns. -/
def process_csv_job (user_id : String) (rules : List CategoryRuleRec)
    (raw_transactions : List RawRow) (classify : String → String)
    (now : PyDateTime) (persistOk : Nat → Bool) : Bool × List NewTx :=
  if pyUUIDValid user_id then
    (true, processRows user_id (buildRules rules) classify now persistOk 0 raw_transactions)
  else
    (false, [])

/-! ## Correction endpoint — `correct_category` (`transactions.py:72-124`) -/

/-- The two error responses the endpoint can raise. -/
inductive ApiError where
  | notFound : ApiError
  | invalidState : ApiError
deriving DecidableEq, Repr

/-- Datastore state touched by the endpoint. -/
structure DbState where
  txs : List StoredTx
  rules : List CategoryRuleRec
deriving DecidableEq, Repr

/-- The rule upsert of `transactions.py:98-115`: overwrite the category of
the existing `(user, keyword)` rule, or insert a new row. -/
def upsertRule : List CategoryRuleRec → String → String → String → List CategoryRuleRec
  | [], u, k, c => [⟨u, k, c⟩]
  | r :: rest, u, k, c =>
    if r.user_id = u && r.keyword = k then { r with category := c } :: rest
    else r :: upsertRule rest u k c

/-- Lines `transactions.py:117-119`: set the transaction's category and reviewed
flag (first row matching id and owner). -/
def updateTx : List StoredTx → Nat → String → String → List StoredTx
  | [], _, _, _ => []
  | t :: rest, txId, u, c =>
    if t.id = txId && t.user_id = u then
      { t with category := some c, is_reviewed := true } :: rest
    else t :: updateTx rest txId u c

/-- Model of `correct_category` (`transactions.py:72-124`): locate the
transaction (`raw_keyword` and `keyword` of the source are inlined), fail
on an empty stripped keyword, otherwise upsert the rule and update the
transaction in one commit. -/
def correct_category (st : DbState) (currentUser : String) (txId : Nat)
    (correctCat : String) : Except ApiError DbState :=
  match st.txs.find? (fun t => t.id = txId && t.user_id = currentUser) with
  | none => .error .notFound
  | some tx =>
    if pyStrip (orStr tx.clean_description tx.original_description "") = "" then
      .error .invalidState
    else
      .ok ⟨updateTx st.txs txId currentUser correctCat,
        upsertRule st.rules currentUser
          (pyLower (pyStrip (orStr tx.clean_description tx.original_description "")))
          correctCat⟩

/-- Number of stored rules for a `(user, keyword)` pair; the database
constraint `uq_user_keyword` keeps it at most 1. -/
def ruleCount (rules : List CategoryRuleRec) (u k : String) : Nat :=
  rules.countP (fun r => r.user_id = u && r.keyword = k)

/-! ## Sanitizer lemmas -/

/-- Digits are word characters. -/
theorem isWordChar_of_isDigitChar {c : Char} (h : isDigitChar c = true) :
    isWordChar c = true := by
  simp only [isDigitChar] at h
  simp [isWordChar, Char.isAlphanum, h]

/-- Separators are not digits. -/
theorem not_isDigitChar_of_isSepChar {c : Char} (h : isSepChar c = true) :
    isDigitChar c = false := by
  simp only [isSepChar, Bool.or_eq_true, decide_eq_true_eq] at h
  rcases h with h | h <;> subst h <;> rfl

/-- Unfolding equation of `piiSub`: successful match at the head. -/
theorem piiSub_succ_pos {f : Nat} {b : Bool} {c : Char} {rest : List Char} {n : Nat}
    (hb : (!b && isDigitChar c) = true) (hm : piiMatch (c :: rest) = some n) :
    piiSub (f + 1) b (c :: rest) = redacted ++ piiSub f true (List.drop n (c :: rest)) := by
  simp [piiSub, hb, hm]

/-- Unfolding equation of `piiSub`: no replacement at the head. -/
theorem piiSub_succ_none {f : Nat} {b : Bool} {c : Char} {rest : List Char}
    (h : piiMatch (c :: rest) = none ∨ (!b && isDigitChar c) = false) :
    piiSub (f + 1) b (c :: rest) = c :: piiSub f (isWordChar c) rest := by
  rcases h with h | h
  · by_cases hb : (!b && isDigitChar c) = true
    · simp [piiSub, hb, h]
    · simp [piiSub, hb]
  · simp [piiSub, h]

/-- The scanner maps the empty input to itself at any fuel. -/
theorem piiSub_nil {f : Nat} {b : Bool} : piiSub f b [] = [] := by
  cases f <;> rfl

/-- A run acceptable from seven or more consumed digits is consumed in full
by the phase-2 matcher. -/
theorem piiTail_run (post : List Char) (hpost : headNonWord post) :
    ∀ (r : List Char) (count : Nat), 7 ≤ count → runOk count r = true →
      piiTail count (r ++ post) = some r.length := by
  intro r
  induction r with
  | nil =>
    intro count h7 hrun
    cases post with
    | nil => rfl
    | cons c cs =>
      have hw : isWordChar c = false := hpost
      have hd : isDigitChar c = false := by
        cases hdc : isDigitChar c with
        | false => rfl
        | true => rw [isWordChar_of_isDigitChar hdc] at hw; exact absurd hw (by simp)
      simp [piiTail, hd, hw]
  | cons c cs ih =>
    intro count h7 hrun
    simp only [runOk] at hrun
    cases hdc : isDigitChar c with
    | true =>
      rw [hdc] at hrun
      simp only [if_true, Bool.and_eq_true, decide_eq_true_eq] at hrun
      obtain ⟨h16, hrun⟩ := hrun
      have h16' : count < 16 := by omega
      have := ih (count + 1) (by omega) hrun
      simp [piiTail, hdc, h16', this]
    | false =>
      rw [hdc] at hrun
      cases hsc : isSepChar c with
      | true =>
        rw [hsc] at hrun
        simp at hrun
        omega
      | false => rw [hsc] at hrun; simp at hrun

/-- A run acceptable from fewer than seven consumed digits is consumed in
full by the phase-1 matcher. -/
theorem piiHead_run (post : List Char) (hpost : headNonWord post) :
    ∀ (r : List Char) (count : Nat), count < 7 → runOk count r = true →
      piiHead count (r ++ post) = some r.length := by
  intro r
  induction r with
  | nil =>
    intro count h7 hrun
    simp only [runOk, Bool.and_eq_true, decide_eq_true_eq] at hrun
    omega
  | cons c cs ih =>
    intro count h7 hrun
    simp only [runOk] at hrun
    cases hdc : isDigitChar c with
    | true =>
      rw [hdc] at hrun
      simp only [if_true, Bool.and_eq_true, decide_eq_true_eq] at hrun
      obtain ⟨h16, hrun⟩ := hrun
      by_cases h77 : count + 1 = 7
      · have := piiTail_run post hpost cs 7 (by omega) (h77 ▸ hrun)
        simp [piiHead, hdc, h77, this]
      · have := ih (count + 1) (by omega) hrun
        simp [piiHead, hdc, h77, this]
    | false =>
      rw [hdc] at hrun
      cases hsc : isSepChar c with
      | true =>
        rw [hsc] at hrun
        simp only [Bool.false_eq_true, if_false, if_true, Bool.and_eq_true,
          decide_eq_true_eq] at hrun
        obtain ⟨⟨h1, h7'⟩, hrun⟩ := hrun
        have := ih count (by omega) hrun
        simp [piiHead, hdc, hsc, this]
      | false => rw [hsc] at hrun; simp at hrun

/-- An acceptable run starts with a digit. -/
theorem runOk_head_digit {c : Char} {cs : List Char}
    (h : runOk 0 (c :: cs) = true) : isDigitChar c = true := by
  simp only [runOk] at h
  cases hdc : isDigitChar c with
  | true => rfl
  | false =>
    rw [hdc] at h
    cases hsc : isSepChar c with
    | true => rw [hsc] at h; simp at h
    | false => rw [hsc] at h; simp at h

/-- A match attempt at the head of an acceptable run followed by non-word
context consumes exactly the run. -/
theorem piiMatch_run (run post : List Char) (hrun : runOk 0 run = true)
    (hpost : headNonWord post) : piiMatch (run ++ post) = some run.length := by
  cases run with
  | nil => simp [runOk] at hrun
  | cons c cs =>
    have hdc := runOk_head_digit hrun
    have := piiHead_run post hpost (c :: cs) 0 (by omega) hrun
    simpa [piiMatch, hdc] using this

/-- Phase-2 match lengths are bounded by the input length. -/
theorem piiTail_le : ∀ (r : List Char) (count n : Nat),
    piiTail count r = some n → n ≤ r.length := by
  intro r
  induction r with
  | nil =>
    intro count n h
    simp only [piiTail, Option.some_inj] at h
    omega
  | cons c cs ih =>
    intro count n h
    simp only [piiTail] at h
    by_cases hdc : isDigitChar c = true
    · rw [if_pos hdc] at h
      by_cases h16 : count < 16
      · rw [if_pos h16] at h
        cases hm : piiTail (count + 1) cs with
        | none => rw [hm] at h; simp at h
        | some m =>
          rw [hm] at h
          simp only [Option.map_some', Option.some_inj] at h
          have := ih (count + 1) m hm
          simp only [List.length_cons]
          omega
      · rw [if_neg h16] at h; simp at h
    · rw [if_neg hdc] at h
      by_cases hw : isWordChar c = true
      · rw [if_pos hw] at h; simp at h
      · rw [if_neg hw] at h
        simp only [Option.some_inj] at h
        omega

/-- Phase-1 match lengths are positive and bounded by the input length. -/
theorem piiHead_le : ∀ (r : List Char) (count n : Nat),
    piiHead count r = some n → 1 ≤ n ∧ n ≤ r.length := by
  intro r
  induction r with
  | nil => intro count n h; simp [piiHead] at h
  | cons c cs ih =>
    intro count n h
    simp only [piiHead] at h
    by_cases hdc : isDigitChar c = true
    · rw [if_pos hdc] at h
      by_cases h7 : count + 1 = 7
      · rw [if_pos h7] at h
        cases hm : piiTail 7 cs with
        | none => rw [hm] at h; simp at h
        | some m =>
          rw [hm] at h
          simp only [Option.map_some', Option.some_inj] at h
          have := piiTail_le cs 7 m hm
          simp only [List.length_cons]
          omega
      · rw [if_neg h7] at h
        cases hm : piiHead (count + 1) cs with
        | none => rw [hm] at h; simp at h
        | some m =>
          rw [hm] at h
          simp only [Option.map_some', Option.some_inj] at h
          have := ih (count + 1) m hm
          simp only [List.length_cons]
          omega
    · rw [if_neg hdc] at h
      by_cases hsc : isSepChar c = true
      · rw [if_pos hsc] at h
        cases hm : piiHead count cs with
        | none => rw [hm] at h; simp at h
        | some m =>
          rw [hm] at h
          simp only [Option.map_some', Option.some_inj] at h
          have := ih count m hm
          simp only [List.length_cons]
          omega
      · rw [if_neg hsc] at h; simp at h

/-- Match lengths are positive and bounded by the input length. -/
theorem piiMatch_le {cs : List Char} {n : Nat} (h : piiMatch cs = some n) :
    1 ≤ n ∧ n ≤ cs.length := by
  cases cs with
  | nil => simp [piiMatch] at h
  | cons c rest =>
    simp only [piiMatch] at h
    by_cases hdc : isDigitChar c = true
    · rw [if_pos hdc] at h
      exact piiHead_le (c :: rest) 0 n h
    · rw [if_neg hdc] at h; simp at h

/-- The scan result does not depend on the fuel, provided the fuel covers
the input length. -/
theorem piiSub_fuel : ∀ (f₁ : Nat), ∀ (f₂ : Nat) (b : Bool) (cs : List Char),
    cs.length ≤ f₁ → cs.length ≤ f₂ → piiSub f₁ b cs = piiSub f₂ b cs := by
  intro f₁
  induction f₁ with
  | zero =>
    intro f₂ b cs h1 _
    have : cs = [] := by
      cases cs with
      | nil => rfl
      | cons c r => simp at h1
    subst this
    simp [piiSub_nil]
  | succ f ih =>
    intro f₂ b cs h1 h2
    cases cs with
    | nil => simp [piiSub_nil]
    | cons c rest =>
      cases f₂ with
      | zero => simp at h2
      | succ f₂' =>
        simp only [List.length_cons] at h1 h2
        by_cases hb : (!b && isDigitChar c) = true
        · cases hm : piiMatch (c :: rest) with
          | some n =>
            have hle := piiMatch_le hm
            have hlen : (List.drop n (c :: rest)).length = rest.length + 1 - n := by
              simp [List.length_drop]
            rw [piiSub_succ_pos hb hm, piiSub_succ_pos hb hm,
              ih f₂' true _ (by omega) (by omega)]
          | none =>
            rw [piiSub_succ_none (Or.inl hm), piiSub_succ_none (Or.inl hm),
              ih f₂' (isWordChar c) rest (by omega) (by omega)]
        · have hb' : (!b && isDigitChar c) = false := by
            cases hx : (!b && isDigitChar c) with
            | true => exact absurd hx hb
            | false => rfl
          rw [piiSub_succ_none (Or.inr hb'), piiSub_succ_none (Or.inr hb'),
            ih f₂' (isWordChar c) rest (by omega) (by omega)]

/-- Scanning across a segment of non-word characters copies it verbatim and
leaves the scanner with `prevWord = false` (unless the segment is empty). -/
theorem piiSub_nonword : ∀ (p : List Char) (rest : List Char) (b : Bool) (fuel : Nat),
    (∀ c ∈ p, isWordChar c = false) → p.length + rest.length ≤ fuel →
    piiSub fuel b (p ++ rest) =
      p ++ piiSub (fuel - p.length) (if p.isEmpty then b else false) rest := by
  intro p
  induction p with
  | nil => intro rest b fuel _ _; simp
  | cons c p' ih =>
    intro rest b fuel hp hf
    have hw : isWordChar c = false := hp c (by simp)
    have hd : isDigitChar c = false := by
      cases hdc : isDigitChar c with
      | false => rfl
      | true => rw [isWordChar_of_isDigitChar hdc] at hw; exact absurd hw (by simp)
    cases fuel with
    | zero => simp only [List.length_cons] at hf; omega
    | succ f =>
      rw [List.cons_append, piiSub_succ_none (Or.inr (by simp [hd])), hw,
        ih rest false f (fun x hx => hp x (List.mem_cons_of_mem c hx))
          (by simp only [List.length_cons] at hf; omega)]
      have e1 : (if p'.isEmpty then (false : Bool) else false) = false := ite_self false
      rw [e1]
      simp only [List.cons_append, List.length_cons, List.isEmpty_cons,
        Nat.succ_sub_succ]
      simp

/-- Scanning a wholly non-word input copies it verbatim. -/
theorem piiSub_all_nonword (p : List Char) (b : Bool) (fuel : Nat)
    (hp : ∀ c ∈ p, isWordChar c = false) (hf : p.length ≤ fuel) :
    piiSub fuel b p = p := by
  have h := piiSub_nonword p [] b fuel hp (by simpa using hf)
  rw [List.append_nil] at h
  rw [h, piiSub_nil, List.append_nil]

/-- Scanning from a non-word position at the head of an acceptable run
followed by non-word context replaces the run with the marker. -/
theorem piiSub_run (run post : List Char) (fuel : Nat)
    (hrun : runOk 0 run = true) (hpost : ∀ c ∈ post, isWordChar c = false)
    (hf : run.length + post.length ≤ fuel) :
    piiSub fuel false (run ++ post) = redacted ++ post := by
  cases run with
  | nil => simp [runOk] at hrun
  | cons c cs =>
    have hdc := runOk_head_digit hrun
    have hpost' : headNonWord post := by
      cases post with
      | nil => trivial
      | cons d _ => exact hpost d (by simp)
    have hmatch := piiMatch_run (c :: cs) post hrun hpost'
    rw [List.cons_append] at hmatch
    cases fuel with
    | zero => simp only [List.length_cons] at hf; omega
    | succ f =>
      rw [List.cons_append, piiSub_succ_pos (by simp [hdc]) hmatch]
      have hdrop : List.drop (c :: cs).length (c :: (cs ++ post)) = post := by
        rw [show c :: (cs ++ post) = (c :: cs) ++ post from rfl]
        exact List.drop_left (c :: cs) post
      rw [hdrop, piiSub_all_nonword post true f hpost
        (by simp only [List.length_cons] at hf; omega)]

/-! ## Claim C8 — the PII sanitizer contract -/

/-- Claim C8, counterexample.  The claim states that every maximal run of 7
to 16 digits is replaced by the marker and all other characters are left
unchanged; on `"a1234567"` the maximal run `"1234567"` should then be
replaced (yielding `"a[REDACTED]"`), but the pattern's leading word
boundary `\b` fails after the letter `a`, so the code returns the input
unchanged. -/
theorem claim8_counterexample :
    sanitize_description "a1234567" = "a1234567" ∧
    sanitize_description "a1234567" ≠ "a" ++ "[REDACTED]" := by
  constructor
  · decide
  · decide

/-- Claim C8, amended.  `sanitize_description` is a total function on
strings; it replaces a run of 7–16 digits — in which spaces or hyphens may
appear only among the first seven digits — with `[REDACTED]` and preserves
the surrounding text, whenever the surrounding text consists of non-word
characters (no letters, digits or underscores adjacent to the run).  The
original claim's unrestricted "every maximal run, all else unchanged" fails
at word-adjacent runs (see the counterexample). -/
theorem claim8_amended (pre run post : String)
    (hpre : ∀ c ∈ pre.data, isWordChar c = false)
    (hpost : ∀ c ∈ post.data, isWordChar c = false)
    (hrun : runOk 0 run.data = true) :
    sanitize_description (pre ++ run ++ post) = pre ++ "[REDACTED]" ++ post := by
  apply String.ext
  have hdata : (pre ++ run ++ post).data = pre.data ++ (run.data ++ post.data) := by
    simp [String.data_append, List.append_assoc]
  show piiSub (pre ++ run ++ post).data.length false (pre ++ run ++ post).data =
    (pre ++ "[REDACTED]" ++ post).data
  rw [hdata]
  rw [piiSub_nonword pre.data (run.data ++ post.data) false _ hpre
    (by simp [List.length_append])]
  rw [ite_self (false : Bool)]
  rw [piiSub_run run.data post.data _ hrun hpost (by simp [List.length_append])]
  simp [String.data_append, redacted, List.append_assoc]

/-- Claim C8, witness: the amended theorem applied to the input
`" 1234567-"`. -/
theorem claim8_witness :
    sanitize_description (" " ++ "1234567" ++ "-") = " " ++ "[REDACTED]" ++ "-" :=
  claim8_amended " " "1234567" "-" (by decide) (by decide) (by decide)

/-! ## Claim C5 — the external classifier client -/

/-- Helper: a successful association lookup implies the membership test of
the Python `in` operator succeeds. -/
theorem any_of_find? {kvs : List (String × Json)} {key : String} {p : String × Json}
    (h : kvs.find? (fun kv => kv.1 = key) = some p) :
    kvs.any (fun kv => kv.1 = key) = true := by
  have hs : (kvs.find? (fun kv => kv.1 = key)).isSome := by rw [h]; rfl
  rw [List.find?_isSome] at hs
  rw [List.any_eq_true]
  exact hs

/-- Claim C5 (confirmed).  `predict_category` is modelled as a total
function (the broad `except` returns the fallback, never re-raising):
with no credential it returns `"Uncategorized"` without issuing the network
request; it returns `"Uncategorized"` on a transport error, a non-2xx
status, an unparseable body, a body that is not a nonempty list, a first
element without a `"labels"` key, or an empty `labels` value; and on a
well-formed response it returns the first element of the first item's
`labels` list. -/
theorem claim5 (hfToken : String) (net : NetResult) :
    (hfToken = "" → predict_category hfToken net = (.str "Uncategorized", false)) ∧
    (hfToken ≠ "" → predict_category hfToken .transportError = (.str "Uncategorized", true)) ∧
    (∀ status body, hfToken ≠ "" → status < 200 ∨ 300 ≤ status →
      predict_category hfToken (.response status body) = (.str "Uncategorized", true)) ∧
    (∀ status, hfToken ≠ "" → 200 ≤ status → status < 300 →
      predict_category hfToken (.response status none) = (.str "Uncategorized", true)) ∧
    (∀ status body, hfToken ≠ "" → 200 ≤ status → status < 300 →
      (∀ x xs, body ≠ Json.arr (x :: xs)) →
      predict_category hfToken (.response status (some body)) = (.str "Uncategorized", true)) ∧
    (∀ status kvs rest, hfToken ≠ "" → 200 ≤ status → status < 300 →
      kvs.any (fun kv => kv.1 = "labels") = false →
      predict_category hfToken (.response status (some (.arr (.obj kvs :: rest)))) =
        (.str "Uncategorized", true)) ∧
    (∀ status kvs rest, hfToken ≠ "" → 200 ≤ status → status < 300 →
      pyIndexStr "labels" (.obj kvs) = some (.arr []) →
      predict_category hfToken (.response status (some (.arr (.obj kvs :: rest)))) =
        (.str "Uncategorized", true)) ∧
    (∀ status kvs rest v vs, hfToken ≠ "" → 200 ≤ status → status < 300 →
      pyIndexStr "labels" (.obj kvs) = some (.arr (v :: vs)) →
      predict_category hfToken (.response status (some (.arr (.obj kvs :: rest)))) =
        (v, true)) := by
  refine ⟨?_, ?_, ?_, ?_, ?_, ?_, ?_, ?_⟩
  · intro h; simp [predict_category, h]
  · intro h; simp [predict_category, h]
  · intro status body h hs
    have : (status < 200 || 300 ≤ status) = true := by
      rcases hs with hs | hs <;> simp [hs]
    simp [predict_category, h, this]
  · intro status h h1 h2
    have : (status < 200 || 300 ≤ status) = false := by
      simp only [Bool.or_eq_false_iff, decide_eq_false_iff_not]
      omega
    simp [predict_category, h, this]
  · intro status body h h1 h2 hb
    have hcond : (status < 200 || 300 ≤ status) = false := by
      simp only [Bool.or_eq_false_iff, decide_eq_false_iff_not]
      omega
    have hx : extractLabel body = .str "Uncategorized" := by
      cases body with
      | arr xs =>
        cases xs with
        | nil => rfl
        | cons x rest => exact absurd rfl (hb x rest)
      | null => rfl
      | bool b => rfl
      | num n => rfl
      | str s => rfl
      | obj kvs => rfl
    simp [predict_category, h, hcond, hx]
  · intro status kvs rest h h1 h2 hno
    have hcond : (status < 200 || 300 ≤ status) = false := by
      simp only [Bool.or_eq_false_iff, decide_eq_false_iff_not]
      omega
    have hx : extractLabel (.arr (.obj kvs :: rest)) = .str "Uncategorized" := by
      simp [extractLabel, pyContains, hno]
    simp [predict_category, h, hcond, hx]
  · intro status kvs rest h h1 h2 hlab
    have hcond : (status < 200 || 300 ≤ status) = false := by
      simp only [Bool.or_eq_false_iff, decide_eq_false_iff_not]
      omega
    have hmem : kvs.any (fun kv => kv.1 = "labels") = true := by
      simp only [pyIndexStr, Option.map_eq_some'] at hlab
      obtain ⟨p, hp, _⟩ := hlab
      exact any_of_find? hp
    have hx : extractLabel (.arr (.obj kvs :: rest)) = .str "Uncategorized" := by
      simp [extractLabel, pyContains, hmem, hlab, pyLen]
    simp [predict_category, h, hcond, hx]
  · intro status kvs rest v vs h h1 h2 hlab
    have hcond : (status < 200 || 300 ≤ status) = false := by
      simp only [Bool.or_eq_false_iff, decide_eq_false_iff_not]
      omega
    have hmem : kvs.any (fun kv => kv.1 = "labels") = true := by
      simp only [pyIndexStr, Option.map_eq_some'] at hlab
      obtain ⟨p, hp, _⟩ := hlab
      exact any_of_find? hp
    have hx : extractLabel (.arr (.obj kvs :: rest)) = v := by
      simp [extractLabel, pyContains, hmem, hlab, pyLen, pyIndexZero]
    simp [predict_category, h, hcond, hx]

/-- Claim C5, witness: the fallback with no token, a 404, and a successful
top-label extraction. -/
theorem claim5_witness :
    predict_category "" .transportError = (.str "Uncategorized", false) ∧
    predict_category "tok" (.response 404 (some (.arr []))) = (.str "Uncategorized", true) ∧
    predict_category "tok"
      (.response 200 (some (.arr [.obj [("labels", .arr [.str "Groceries", .str "Rent"])]]))) =
      (.str "Groceries", true) := by
  refine ⟨(claim5 "" .transportError).1 rfl, ?_, ?_⟩
  · exact (claim5 "tok" .transportError).2.2.1 404 (some (.arr []))
      (by simp) (by omega)
  · exact (claim5 "tok" .transportError).2.2.2.2.2.2.2 200
      [("labels", .arr [.str "Groceries", .str "Rent"])] [] (.str "Groceries")
      [.str "Rent"] (by simp) (by omega) (by omega) rfl

/-! ## Claim C2 — batch result and per-row failure isolation -/

/-- The row loop is an enumerated `filterMap`: each row's contribution to
the persisted list depends on that row alone, so one failing row leaves
every other row's processing unchanged. -/
theorem processRows_eq_filterMap (userId : String) (rulesDict : List (String × String))
    (classify : String → String) (now : PyDateTime) (persistOk : Nat → Bool) :
    ∀ (rows : List RawRow) (i : Nat),
      processRows userId rulesDict classify now persistOk i rows =
        (List.enumFrom i rows).filterMap
          (fun p => (processRow userId rulesDict classify now (persistOk p.1) p.2).tx) := by
  intro rows
  induction rows with
  | nil => intro i; rfl
  | cons row rest ih =>
    intro i
    simp only [processRows, List.enumFrom, List.filterMap_cons]
    cases h : (processRow userId rulesDict classify now (persistOk i) row).tx with
    | some t => simp [ih (i + 1)]
    | none => simp [ih (i + 1)]

/-- Claim C2 (confirmed).  `process_csv_job` returns `false` exactly when
the user id does not parse as a UUID, and then it returns before touching
any row (nothing is persisted); with a valid user id it always returns
`true`, and the persisted transactions are the per-row results of the
independent row processing — a row that fails (parse or persistence error)
is merely absent from the output, every other row is processed. -/
theorem claim2 (user_id : String) (rules : List CategoryRuleRec)
    (rows : List RawRow) (classify : String → String) (now : PyDateTime)
    (persistOk : Nat → Bool) :
    ((process_csv_job user_id rules rows classify now persistOk).1 = false ↔
      pyUUIDValid user_id = false) ∧
    (pyUUIDValid user_id = false →
      process_csv_job user_id rules rows classify now persistOk = (false, [])) ∧
    (pyUUIDValid user_id = true →
      process_csv_job user_id rules rows classify now persistOk =
        (true, rows.enum.filterMap
          (fun p => (processRow user_id (buildRules rules) classify now
            (persistOk p.1) p.2).tx))) := by
  refine ⟨?_, ?_, ?_⟩
  · cases h : pyUUIDValid user_id with
    | true => simp [process_csv_job, h]
    | false => simp [process_csv_job, h]
  · intro h; simp [process_csv_job, h]
  · intro h
    simp only [process_csv_job, h, if_true]
    rw [processRows_eq_filterMap]
    rfl

set_option maxRecDepth 8000 in
/-- Claim C2, witness: an invalid user id yields `(false, [])`; a valid
UUID yields `(true, [])` on the empty batch. -/
theorem claim2_witness :
    process_csv_job "not-a-uuid" [] [] (fun _ => "Uncategorized")
      ⟨2025, 1, 1, 0, 0, 0, 0, none⟩ (fun _ => true) = (false, []) ∧
    process_csv_job "2c0d8e2e-7fd7-4e35-84fe-27f7e1afc322" [] []
      (fun _ => "Uncategorized") ⟨2025, 1, 1, 0, 0, 0, 0, none⟩ (fun _ => true) =
      (true, []) := by
  constructor
  · exact (claim2 "not-a-uuid" [] [] (fun _ => "Uncategorized")
      ⟨2025, 1, 1, 0, 0, 0, 0, none⟩ (fun _ => true)).2.1 (by decide)
  · have h := (claim2 "2c0d8e2e-7fd7-4e35-84fe-27f7e1afc322" [] []
      (fun _ => "Uncategorized") ⟨2025, 1, 1, 0, 0, 0, 0, none⟩ (fun _ => true)).2.2
      (by decide)
    rw [h]
    rfl

/-! ## Row-processing case analysis (shared by the worker claims) -/

/-- Exhaustive description of one row iteration: the amount fails to parse,
or a rule with a non-empty category matches (no classifier call), or a rule
with an empty category matches (falsy in `if not category`, classifier
called), or no rule matches (classifier called). -/
theorem processRow_cases (userId : String) (rulesDict : List (String × String))
    (classify : String → String) (now : PyDateTime) (b : Bool) (row : RawRow) :
    (rowAmountRes row = none ∧
      processRow userId rulesDict classify now b row = ⟨none, false, none⟩) ∨
    (∃ amount, rowAmountRes row = some amount ∧
      ((∃ k c, findMatchingRule rulesDict row = some (k, c) ∧ c ≠ "" ∧
        processRow userId rulesDict classify now b row =
          ⟨if b then some ⟨userId, rowDate now row, rowOriginalDesc row,
            rowCleanDesc row, amount, c⟩ else none, false, none⟩) ∨
      (∃ k, findMatchingRule rulesDict row = some (k, "") ∧
        processRow userId rulesDict classify now b row =
          ⟨if b then some ⟨userId, rowDate now row, rowOriginalDesc row,
            rowCleanDesc row, amount, classify (rowCleanDesc row)⟩ else none,
            true, some (rowCleanDesc row)⟩) ∨
      (findMatchingRule rulesDict row = none ∧
        processRow userId rulesDict classify now b row =
          ⟨if b then some ⟨userId, rowDate now row, rowOriginalDesc row,
            rowCleanDesc row, amount, classify (rowCleanDesc row)⟩ else none,
            true, some (rowCleanDesc row)⟩))) := by
  cases ha : rowAmountRes row with
  | none =>
    left
    exact ⟨rfl, by simp [processRow, ha]⟩
  | some amount =>
    right
    refine ⟨amount, rfl, ?_⟩
    cases hf : findMatchingRule rulesDict row with
    | some kc =>
      obtain ⟨k, c⟩ := kc
      by_cases hc : c = ""
      · subst hc
        right; left
        exact ⟨k, rfl, by simp [processRow, ha, hf]⟩
      · left
        exact ⟨k, c, rfl, hc, by simp [processRow, ha, hf, hc]⟩
    | none =>
      right; right
      exact ⟨rfl, by simp [processRow, ha, hf]⟩

/-! ## Claim C1 — rule precedence over the classifier -/

/-- Claim C1, counterexample.  With the rule set `{"x": ""}` (an empty
category is accepted by the correction schema) and a row whose sanitized
lowercased description contains the keyword `"x"`, the claim requires the
rule's category to be persisted with no classifier call; the code's
`if not category` treats the matched empty category as falsy, invokes the
classifier, and persists the classifier's answer instead. -/
theorem claim1_counterexample :
    containsSub "x".data
      (pyLower (rowCleanDesc ⟨some "x", none, none, none, none, none⟩)).data = true ∧
    (processRow "u" (buildRules [⟨"u", "x", ""⟩]) (fun _ => "FromClassifier")
      ⟨2025, 1, 1, 0, 0, 0, 0, none⟩ true
      ⟨some "x", none, none, none, none, none⟩).classifierCalled = true ∧
    ((processRow "u" (buildRules [⟨"u", "x", ""⟩]) (fun _ => "FromClassifier")
      ⟨2025, 1, 1, 0, 0, 0, 0, none⟩ true
      ⟨some "x", none, none, none, none, none⟩).tx.map NewTx.category) =
      some "FromClassifier" ∧
    ("FromClassifier" : String) ≠ "" := by
  refine ⟨by decide, by decide, by decide, by decide⟩

/-- Claim C1, amended.  For every rule dictionary and row whose amount
parses: if the first matching rule (in rule-load order) has a non-empty
category, that category is persisted and the classifier is not consulted;
if no rule keyword occurs in the lowercased sanitized description, the
classifier is consulted and its result is persisted.  (The original claim
fails only for matched rules whose stored category is the empty string —
see the counterexample.) -/
theorem claim1_amended (userId : String) (rulesDict : List (String × String))
    (classify : String → String) (now : PyDateTime) (row : RawRow)
    (amount : PyFloat) (hamount : rowAmountRes row = some amount) :
    (∀ k c, findMatchingRule rulesDict row = some (k, c) → c ≠ "" →
      (processRow userId rulesDict classify now true row).classifierCalled = false ∧
      (processRow userId rulesDict classify now true row).tx =
        some ⟨userId, rowDate now row, rowOriginalDesc row, rowCleanDesc row,
          amount, c⟩) ∧
    (findMatchingRule rulesDict row = none →
      (processRow userId rulesDict classify now true row).classifierCalled = true ∧
      (processRow userId rulesDict classify now true row).tx =
        some ⟨userId, rowDate now row, rowOriginalDesc row, rowCleanDesc row,
          amount, classify (rowCleanDesc row)⟩) ∧
    (findMatchingRule rulesDict row = none ↔
      ∀ kv ∈ rulesDict,
        ¬containsSub kv.1.data (pyLower (rowCleanDesc row)).data = true) := by
  refine ⟨?_, ?_, ?_⟩
  · intro k c hf hc
    constructor
    · simp [processRow, hamount, hf, hc]
    · simp [processRow, hamount, hf, hc]
  · intro hf
    constructor
    · simp [processRow, hamount, hf]
    · simp [processRow, hamount, hf]
  · unfold findMatchingRule
    rw [List.find?_eq_none]

/-- Claim C1, witness: the spec's own example — rule
`{"netflix": "Subscriptions"}` and a row `"NETFLIX MONTHLY"` — persists
`"Subscriptions"` without consulting the classifier. -/
theorem claim1_witness :
    (processRow "u" (buildRules [⟨"u", "netflix", "Subscriptions"⟩])
      (fun _ => "FromClassifier") ⟨2025, 1, 1, 0, 0, 0, 0, none⟩ true
      ⟨some "NETFLIX MONTHLY", none, none, none, none, none⟩).classifierCalled =
      false ∧
    (processRow "u" (buildRules [⟨"u", "netflix", "Subscriptions"⟩])
      (fun _ => "FromClassifier") ⟨2025, 1, 1, 0, 0, 0, 0, none⟩ true
      ⟨some "NETFLIX MONTHLY", none, none, none, none, none⟩).tx =
      some ⟨"u", ⟨2025, 1, 1, 0, 0, 0, 0, none⟩, "NETFLIX MONTHLY",
        "NETFLIX MONTHLY", .finite 0, "Subscriptions"⟩ := by
  have h := (claim1_amended "u" (buildRules [⟨"u", "netflix", "Subscriptions"⟩])
    (fun _ => "FromClassifier") ⟨2025, 1, 1, 0, 0, 0, 0, none⟩
    ⟨some "NETFLIX MONTHLY", none, none, none, none, none⟩ (.finite 0) rfl).1
    "netflix" "Subscriptions" (by decide) (by decide)
  have hdate : rowDate ⟨2025, 1, 1, 0, 0, 0, 0, none⟩
      ⟨some "NETFLIX MONTHLY", none, none, none, none, none⟩ =
      ⟨2025, 1, 1, 0, 0, 0, 0, none⟩ := rfl
  have horig : rowOriginalDesc ⟨some "NETFLIX MONTHLY", none, none, none, none, none⟩ =
      "NETFLIX MONTHLY" := rfl
  have hclean : rowCleanDesc ⟨some "NETFLIX MONTHLY", none, none, none, none, none⟩ =
      "NETFLIX MONTHLY" := by decide
  exact ⟨h.1, by rw [h.2, hdate, horig, hclean]⟩

/-! ## Claim C3 — missing versus unparseable amounts -/

set_option maxRecDepth 8000 in
/-- Claim C3, counterexample.  The claim requires a row whose amount is
present but unparseable to be persisted with amount 0; on the batch
containing the row with amount `"abc"` (which `float` rejects) the worker
persists nothing — the `ValueError` skips the row. -/
theorem claim3_counterexample :
    (process_csv_job "2c0d8e2e-7fd7-4e35-84fe-27f7e1afc322" []
      [⟨some "coffee", none, none, none, some "abc", none⟩]
      (fun _ => "Uncategorized") ⟨2025, 1, 1, 0, 0, 0, 0, none⟩
      (fun _ => true)).2 = [] ∧
    pyFloatParse "abc" = none ∧
    pyUUIDValid "2c0d8e2e-7fd7-4e35-84fe-27f7e1afc322" = true := by
  refine ⟨by decide, rfl, by decide⟩

/-- Claim C3, amended.  A missing (or empty, hence falsy) amount field
defaults to 0 and the row is persisted; a non-empty amount that `float`
cannot parse raises, and the row is skipped — nothing is persisted for it
and the classifier is never consulted for it. -/
theorem claim3_amended (userId : String) (rulesDict : List (String × String))
    (classify : String → String) (now : PyDateTime) (row : RawRow) :
    (orOpt row.amount row.amountUp = none →
      ∃ t, (processRow userId rulesDict classify now true row).tx = some t ∧
        t.amount = .finite 0) ∧
    (∀ s, orOpt row.amount row.amountUp = some s → pyFloatParse s = none →
      ∀ b, (processRow userId rulesDict classify now b row).tx = none ∧
        (processRow userId rulesDict classify now b row).classifierCalled = false) := by
  constructor
  · intro hmiss
    have ha : rowAmountRes row = some (.finite 0) := by
      simp [rowAmountRes, hmiss]
    rcases processRow_cases userId rulesDict classify now true row with
      ⟨hn, _⟩ | ⟨amount, hs, hcase⟩
    · rw [ha] at hn; exact absurd hn (by simp)
    · rw [ha] at hs
      have hamt : amount = PyFloat.finite 0 := (Option.some_inj.mp hs).symm
      subst hamt
      rcases hcase with ⟨k, c, _, _, heq⟩ | ⟨k, _, heq⟩ | ⟨_, heq⟩
      · exact ⟨⟨userId, rowDate now row, rowOriginalDesc row, rowCleanDesc row,
          .finite 0, c⟩, by rw [heq]; try rfl, rfl⟩
      · exact ⟨⟨userId, rowDate now row, rowOriginalDesc row, rowCleanDesc row,
          .finite 0, classify (rowCleanDesc row)⟩, by rw [heq]; try rfl, rfl⟩
      · exact ⟨⟨userId, rowDate now row, rowOriginalDesc row, rowCleanDesc row,
          .finite 0, classify (rowCleanDesc row)⟩, by rw [heq]; try rfl, rfl⟩
  · intro s hsome hparse b
    have ha : rowAmountRes row = none := by
      simp [rowAmountRes, hsome, hparse]
    rcases processRow_cases userId rulesDict classify now b row with
      ⟨_, heq⟩ | ⟨amount, hs, _⟩
    · rw [heq]; exact ⟨rfl, rfl⟩
    · rw [ha] at hs; exact absurd hs (by simp)

/-- Claim C3, witness: a row with no amount field persists with amount 0; a
row with amount `"abc"` is skipped. -/
theorem claim3_witness :
    (∃ t, (processRow "u" [] (fun _ => "Uncategorized")
      ⟨2025, 1, 1, 0, 0, 0, 0, none⟩ true
      ⟨some "coffee", none, none, none, none, none⟩).tx = some t ∧
      t.amount = .finite 0) ∧
    ((processRow "u" [] (fun _ => "Uncategorized")
      ⟨2025, 1, 1, 0, 0, 0, 0, none⟩ true
      ⟨some "coffee", none, none, none, some "abc", none⟩).tx = none) := by
  constructor
  · exact (claim3_amended "u" [] (fun _ => "Uncategorized")
      ⟨2025, 1, 1, 0, 0, 0, 0, none⟩
      ⟨some "coffee", none, none, none, none, none⟩).1 rfl
  · exact ((claim3_amended "u" [] (fun _ => "Uncategorized")
      ⟨2025, 1, 1, 0, 0, 0, 0, none⟩
      ⟨some "coffee", none, none, none, some "abc", none⟩).2 "abc" rfl rfl true).1

/-! ## Claim C4 — sanitization before persistence and transmission -/

set_option maxRecDepth 8000 in
/-- Claim C4, counterexample.  The worker persists the raw
`original_description` column untouched; a batch with the description
`"PAYMENT 12345678"` persists that description verbatim, so a stored
description contains an unmasked run of 8 digits, contradicting the claim
that every persisted description passed through the sanitizer. -/
theorem claim4_counterexample :
    ((process_csv_job "2c0d8e2e-7fd7-4e35-84fe-27f7e1afc322" []
      [⟨some "PAYMENT 12345678", none, none, none, none, none⟩]
      (fun _ => "Uncategorized") ⟨2025, 1, 1, 0, 0, 0, 0, none⟩
      (fun _ => true)).2.map NewTx.original_description) = ["PAYMENT 12345678"] ∧
    containsSub "12345678".data "PAYMENT 12345678".data = true ∧
    sanitize_description "PAYMENT 12345678" = "PAYMENT [REDACTED]" := by
  refine ⟨by decide, by decide, by decide⟩

/-- Claim C4, amended.  For every persisted row, the `clean_description`
column and the text handed to the external classifier are exactly the
sanitizer's output on the raw description; the `original_description`
column is persisted as uploaded (it is not sanitized). -/
theorem claim4_amended (userId : String) (rulesDict : List (String × String))
    (classify : String → String) (now : PyDateTime) (b : Bool) (row : RawRow) :
    (∀ t, (processRow userId rulesDict classify now b row).tx = some t →
      t.clean_description = sanitize_description (rowOriginalDesc row) ∧
      t.original_description = rowOriginalDesc row) ∧
    (∀ s, (processRow userId rulesDict classify now b row).classifierInput = some s →
      s = sanitize_description (rowOriginalDesc row)) := by
  rcases processRow_cases userId rulesDict classify now b row with
    ⟨_, heq⟩ | ⟨amount, _, hcase⟩
  · rw [heq]
    exact ⟨fun t ht => by simp at ht, fun s hs => by simp at hs⟩
  · rcases hcase with ⟨k, c, _, _, heq⟩ | ⟨k, _, heq⟩ | ⟨_, heq⟩ <;> rw [heq] <;>
      refine ⟨fun t ht => ?_, fun s hs => ?_⟩
    · cases b with
      | true => rw [← Option.some_inj.mp ht]; exact ⟨rfl, rfl⟩
      | false => simp at ht
    · simp at hs
    · cases b with
      | true => rw [← Option.some_inj.mp ht]; exact ⟨rfl, rfl⟩
      | false => simp at ht
    · exact (Option.some_inj.mp hs).symm
    · cases b with
      | true => rw [← Option.some_inj.mp ht]; exact ⟨rfl, rfl⟩
      | false => simp at ht
    · exact (Option.some_inj.mp hs).symm


/-- Claim C4, witness: the amended theorem at a concrete row whose
description carries an account number. -/
theorem claim4_witness :
    ∀ t, (processRow "u" [] (fun _ => "Uncategorized")
      ⟨2025, 1, 1, 0, 0, 0, 0, none⟩ true
      ⟨some "PAYMENT 12345678", none, none, none, none, none⟩).tx = some t →
      t.clean_description =
        sanitize_description (rowOriginalDesc
          ⟨some "PAYMENT 12345678", none, none, none, none, none⟩) ∧
      t.original_description =
        rowOriginalDesc ⟨some "PAYMENT 12345678", none, none, none, none, none⟩ :=
  (claim4_amended "u" [] (fun _ => "Uncategorized")
    ⟨2025, 1, 1, 0, 0, 0, 0, none⟩ true
    ⟨some "PAYMENT 12345678", none, none, none, none, none⟩).1

/-! ## Claim C9 — date parsing and fallback to the current time -/

/-- Claim C9 (confirmed).  If the row's date field (either casing, falsy
values skipped) parses with `fromisoformat`, the persisted date is the
parsed value with any UTC offset stripped; if the field is absent or fails
to parse, the current timestamp is used; in every case the date handling
never fails the row — with a parseable amount and a successful commit the
row is persisted. -/
theorem claim9 (userId : String) (rulesDict : List (String × String))
    (classify : String → String) (now : PyDateTime) (row : RawRow) :
    (∀ s d, orOpt row.date row.dateUp = some s → pyFromIso s = some d →
      ∀ t, (processRow userId rulesDict classify now true row).tx = some t →
        t.date = stripTz d) ∧
    (orOpt row.date row.dateUp = none →
      ∀ t, (processRow userId rulesDict classify now true row).tx = some t →
        t.date = now) ∧
    (∀ s, orOpt row.date row.dateUp = some s → pyFromIso s = none →
      ∀ t, (processRow userId rulesDict classify now true row).tx = some t →
        t.date = now) ∧
    (rowAmountRes row ≠ none →
      ∃ t, (processRow userId rulesDict classify now true row).tx = some t) := by
  have hdate : ∀ t, (processRow userId rulesDict classify now true row).tx = some t →
      t.date = rowDate now row := by
    rcases processRow_cases userId rulesDict classify now true row with
      ⟨_, heq⟩ | ⟨amount, _, hcase⟩
    · rw [heq]; intro t ht; simp at ht
    · rcases hcase with ⟨k, c, _, _, heq⟩ | ⟨k, _, heq⟩ | ⟨_, heq⟩ <;>
        rw [heq] <;> intro t ht <;> rw [← Option.some_inj.mp ht] <;> rfl
  refine ⟨?_, ?_, ?_, ?_⟩
  · intro s d hs hd t ht
    rw [hdate t ht]
    simp [rowDate, hs, hd]
  · intro hnone t ht
    rw [hdate t ht]
    simp [rowDate, hnone]
  · intro s hs hd t ht
    rw [hdate t ht]
    simp [rowDate, hs, hd]
  · intro ha
    cases has : rowAmountRes row with
    | none => exact absurd has ha
    | some amount =>
      rcases processRow_cases userId rulesDict classify now true row with
        ⟨hn, _⟩ | ⟨amount', _, hcase⟩
      · rw [has] at hn; exact absurd hn (by simp)
      · rcases hcase with ⟨k, c, _, _, heq⟩ | ⟨k, _, heq⟩ | ⟨_, heq⟩
        · exact ⟨⟨userId, rowDate now row, rowOriginalDesc row, rowCleanDesc row,
            amount', c⟩, by rw [heq]; try rfl⟩
        · exact ⟨⟨userId, rowDate now row, rowOriginalDesc row, rowCleanDesc row,
            amount', classify (rowCleanDesc row)⟩, by rw [heq]; try rfl⟩
        · exact ⟨⟨userId, rowDate now row, rowOriginalDesc row, rowCleanDesc row,
            amount', classify (rowCleanDesc row)⟩, by rw [heq]; try rfl⟩

/-- Claim C9, witness: an ISO datetime with an offset is parsed and
stripped; a malformed date falls back to the current time. -/
theorem claim9_witness :
    (∀ t, (processRow "u" [] (fun _ => "Uncategorized")
      ⟨2025, 1, 1, 0, 0, 0, 0, none⟩ true
      ⟨some "x", none, some "2025-10-03T12:30:45+02:00", none, none, none⟩).tx =
        some t → t.date = ⟨2025, 10, 3, 12, 30, 45, 0, none⟩) ∧
    (∀ t, (processRow "u" [] (fun _ => "Uncategorized")
      ⟨2025, 1, 1, 0, 0, 0, 0, none⟩ true
      ⟨some "x", none, some "bad-date", none, none, none⟩).tx = some t →
        t.date = ⟨2025, 1, 1, 0, 0, 0, 0, none⟩) := by
  constructor
  · intro t ht
    exact (claim9 "u" [] (fun _ => "Uncategorized") ⟨2025, 1, 1, 0, 0, 0, 0, none⟩
      ⟨some "x", none, some "2025-10-03T12:30:45+02:00", none, none, none⟩).1
      "2025-10-03T12:30:45+02:00" ⟨2025, 10, 3, 12, 30, 45, 0, some 120⟩ rfl
      (by decide) t ht
  · intro t ht
    exact ((claim9 "u" [] (fun _ => "Uncategorized") ⟨2025, 1, 1, 0, 0, 0, 0, none⟩
      ⟨some "x", none, some "bad-date", none, none, none⟩).2.2.1
      "bad-date" rfl (by decide) t ht)

/-! ## Correction endpoint lemmas (shared by C6, C7, C10) -/

/-- Inversion of a successful correction: the transaction was found and the
new state is exactly the simultaneous transaction update and rule upsert. -/
theorem correct_category_ok_inv {st : DbState} {user : String} {txId : Nat}
    {cat : String} {st' : DbState}
    (h : correct_category st user txId cat = .ok st') :
    ∃ tx, st.txs.find? (fun t => t.id = txId && t.user_id = user) = some tx ∧
      pyStrip (orStr tx.clean_description tx.original_description "") ≠ "" ∧
      st' = ⟨updateTx st.txs txId user cat,
        upsertRule st.rules user
          (pyLower (pyStrip (orStr tx.clean_description tx.original_description ""))) cat⟩ := by
  unfold correct_category at h
  cases hf : st.txs.find? (fun t => t.id = txId && t.user_id = user) with
  | none =>
    simp only [hf] at h
    exact Except.noConfusion h
  | some tx =>
    simp only [hf] at h
    by_cases hk : pyStrip (orStr tx.clean_description tx.original_description "") = ""
    · rw [if_pos hk] at h
      exact absurd h (by simp)
    · rw [if_neg hk] at h
      simp only [Except.ok.injEq] at h
      exact ⟨tx, rfl, hk, h.symm⟩

/-- Decomposition of the transaction update: the list splits at the first
row matching the id and owner; that row gets the new category and the
reviewed flag, every other row is returned unchanged. -/
theorem updateTx_decomp : ∀ (txs : List StoredTx) (txId : Nat) (u c : String) (tx : StoredTx),
    txs.find? (fun t => t.id = txId && t.user_id = u) = some tx →
    ∃ pre post, txs = pre ++ tx :: post ∧
      updateTx txs txId u c =
        pre ++ ({ tx with category := some c, is_reviewed := true }) :: post ∧
      ∀ x ∈ pre, ¬(x.id = txId ∧ x.user_id = u) := by
  intro txs
  induction txs with
  | nil => intro txId u c tx h; simp at h
  | cons t rest ih =>
    intro txId u c tx h
    by_cases hp : (t.id = txId && t.user_id = u) = true
    · simp only [List.find?, hp] at h
      have : t = tx := by injection h
      subst this
      refine ⟨[], rest, rfl, ?_, by simp⟩
      simp [updateTx, hp]
    · have hp' : (t.id = txId && t.user_id = u) = false := by
        cases hx : (t.id = txId && t.user_id = u) with
        | true => exact absurd hx hp
        | false => rfl
      simp only [List.find?, hp'] at h
      obtain ⟨pre, post, hsplit, hupd, hpre⟩ := ih txId u c tx h
      refine ⟨t :: pre, post, by rw [hsplit]; rfl, ?_, ?_⟩
      · have hup : updateTx (t :: rest) txId u c = t :: updateTx rest txId u c := by
          simp only [updateTx]
          rw [if_neg (by simpa using hp)]
        rw [hup, hupd]
        rfl
      · intro x hx
        rcases List.mem_cons.mp hx with hx | hx
        · subst hx
          intro ⟨h1, h2⟩
          exact hp (by simp [h1, h2])
        · exact hpre x hx

/-- The upsert target count becomes one when it was at most one. -/
theorem ruleCount_upsert_self : ∀ (rules : List CategoryRuleRec) (u k c : String),
    ruleCount rules u k ≤ 1 → ruleCount (upsertRule rules u k c) u k = 1 := by
  intro rules
  induction rules with
  | nil => intro u k c _; simp [upsertRule, ruleCount, List.countP_cons]
  | cons r rest ih =>
    intro u k c hle
    by_cases hp : (r.user_id = u && r.keyword = k) = true
    · have hups : upsertRule (r :: rest) u k c = { r with category := c } :: rest := by
        simp only [upsertRule]
        rw [if_pos hp]
      have hcount : ruleCount rest u k = 0 := by
        simp only [ruleCount, List.countP_cons, hp, if_true] at hle ⊢
        omega
      simp only [ruleCount, List.countP_cons] at hcount ⊢
      rw [hups]
      simp only [List.countP_cons, hcount]
      simp only [Bool.and_eq_true, decide_eq_true_eq] at hp ⊢
      simp [hp.1, hp.2]
    · have hups : upsertRule (r :: rest) u k c = r :: upsertRule rest u k c := by
        simp only [upsertRule]
        rw [if_neg (by simpa using hp)]
      have hle' : ruleCount rest u k ≤ 1 := by
        simp only [ruleCount, List.countP_cons] at hle ⊢
        omega
      have := ih u k c hle'
      rw [hups]
      simp only [ruleCount, List.countP_cons] at this ⊢
      rw [this]
      simp [hp]

/-- The upsert leaves the counts of all other `(user, keyword)` pairs
unchanged. -/
theorem ruleCount_upsert_other : ∀ (rules : List CategoryRuleRec) (u k c u' k' : String),
    ¬(u = u' ∧ k = k') →
    ruleCount (upsertRule rules u k c) u' k' = ruleCount rules u' k' := by
  intro rules
  induction rules with
  | nil =>
    intro u k c u' k' hne
    simp only [upsertRule, ruleCount, List.countP_cons, List.countP_nil]
    have : (decide (u = u') && decide (k = k')) = false := by
      cases hd : decide (u = u') with
      | false => rfl
      | true =>
        cases hd' : decide (k = k') with
        | false => rfl
        | true =>
          exact absurd ⟨of_decide_eq_true hd, of_decide_eq_true hd'⟩ hne
    simpa using this
  | cons r rest ih =>
    intro u k c u' k' hne
    by_cases hp : (r.user_id = u && r.keyword = k) = true
    · have hups : upsertRule (r :: rest) u k c = { r with category := c } :: rest := by
        simp only [upsertRule]
        rw [if_pos hp]
      rw [hups]
      simp [ruleCount, List.countP_cons]
    · have hups : upsertRule (r :: rest) u k c = r :: upsertRule rest u k c := by
        simp only [upsertRule]
        rw [if_neg (by simpa using hp)]
      rw [hups]
      simp only [ruleCount, List.countP_cons]
      rw [show (upsertRule rest u k c).countP
          (fun r => r.user_id = u' && r.keyword = k') = ruleCount (upsertRule rest u k c) u' k'
        from rfl]
      rw [ih u k c u' k' hne]
      rfl

/-- Every rule matching the upsert key after an upsert carries the upserted
category, provided the pair was unique before. -/
theorem upsertRule_values : ∀ (rules : List CategoryRuleRec) (u k c : String),
    ruleCount rules u k ≤ 1 →
    ∀ r ∈ upsertRule rules u k c, r.user_id = u → r.keyword = k → r.category = c := by
  intro rules
  induction rules with
  | nil =>
    intro u k c _ r hr _ _
    simp only [upsertRule, List.mem_singleton] at hr
    rw [hr]
  | cons x rest ih =>
    intro u k c hle r hr hu hk
    by_cases hp : (x.user_id = u && x.keyword = k) = true
    · have hups : upsertRule (x :: rest) u k c = { x with category := c } :: rest := by
        simp only [upsertRule]
        rw [if_pos hp]
      rw [hups] at hr
      rcases List.mem_cons.mp hr with hr | hr
      · rw [hr]
      · exfalso
        have hzero : ruleCount rest u k = 0 := by
          simp only [ruleCount, List.countP_cons, hp, if_true] at hle ⊢
          omega
        have := List.countP_eq_zero.mp hzero r hr
        simp [hu, hk] at this
    · have hups : upsertRule (x :: rest) u k c = x :: upsertRule rest u k c := by
        simp only [upsertRule]
        rw [if_neg (by simpa using hp)]
      rw [hups] at hr
      rcases List.mem_cons.mp hr with hr | hr
      · exfalso
        rw [← hr] at hp
        exact hp (by simp [hu, hk])
      · have hle' : ruleCount rest u k ≤ 1 := by
          simp only [ruleCount, List.countP_cons] at hle ⊢
          omega
        exact ih u k c hle' r hr hu hk

/-! ## Claim C6 — the correction endpoint -/

/-- Claim C6, counterexample.  A transaction whose `clean_description` is
the whitespace string `" "` and whose `original_description` is `"shop"`
has neither description empty, so the claim requires a successful upsert;
the code strips the (truthy) clean description to the empty string and
raises the validation error instead. -/
theorem claim6_counterexample :
    correct_category
      ⟨[⟨1, "u", ⟨2025, 1, 1, 0, 0, 0, 0, none⟩, .finite 0, some "shop", some " ",
        none, false⟩], []⟩ "u" 1 "Transport" = .error .invalidState ∧
    (" " : String) ≠ "" ∧ ("shop" : String) ≠ "" := by
  refine ⟨rfl, by decide, by decide⟩

/-- Claim C6, amended.  The correction fails with `NotFound` exactly when
no transaction with the given id belongs to the user; when found, it fails
with the validation error exactly when the derived keyword — the clean
description, falling back to the original when the clean one is null or
empty, then stripped — is empty (in particular when both are empty, but
also for whitespace-only descriptions); otherwise it succeeds, and the new
state is precisely the transaction update (category set, reviewed set) and
the rule upsert keyed by the stripped, lowercased derived keyword,
committed together. -/
theorem claim6_amended (st : DbState) (user : String) (txId : Nat) (cat : String) :
    (st.txs.find? (fun t => t.id = txId && t.user_id = user) = none →
      correct_category st user txId cat = .error .notFound) ∧
    (∀ tx, st.txs.find? (fun t => t.id = txId && t.user_id = user) = some tx →
      (pyStrip (orStr tx.clean_description tx.original_description "") = "" →
        correct_category st user txId cat = .error .invalidState) ∧
      (pyStrip (orStr tx.clean_description tx.original_description "") ≠ "" →
        correct_category st user txId cat =
          .ok ⟨updateTx st.txs txId user cat,
            upsertRule st.rules user
              (pyLower (pyStrip (orStr tx.clean_description tx.original_description "")))
              cat⟩)) := by
  constructor
  · intro hf
    unfold correct_category
    simp only [hf]
  · intro tx hf
    constructor
    · intro hk
      unfold correct_category
      simp only [hf]
      rw [if_pos hk]
    · intro hk
      unfold correct_category
      simp only [hf]
      rw [if_neg hk]

/-- Claim C6, witness: correcting a transaction with clean description
`"Uber Trip"` succeeds and stores the rule keyed `"uber trip"`. -/
theorem claim6_witness :
    correct_category
      ⟨[⟨1, "u", ⟨2025, 1, 1, 0, 0, 0, 0, none⟩, .finite 0, some "UBER TRIP 99",
        some "Uber Trip", some "Shopping", false⟩], []⟩ "u" 1 "Transport" =
      .ok ⟨[⟨1, "u", ⟨2025, 1, 1, 0, 0, 0, 0, none⟩, .finite 0, some "UBER TRIP 99",
        some "Uber Trip", some "Transport", true⟩],
        [⟨"u", "uber trip", "Transport"⟩]⟩ ∧
    correct_category (⟨[], []⟩ : DbState) "u" 1 "Transport" = .error .notFound := by
  constructor
  · have h := ((claim6_amended
      ⟨[⟨1, "u", ⟨2025, 1, 1, 0, 0, 0, 0, none⟩, .finite 0, some "UBER TRIP 99",
        some "Uber Trip", some "Shopping", false⟩], []⟩ "u" 1 "Transport").2
      ⟨1, "u", ⟨2025, 1, 1, 0, 0, 0, 0, none⟩, .finite 0, some "UBER TRIP 99",
        some "Uber Trip", some "Shopping", false⟩ (by decide)).2 (by decide)
    rw [h]
    rfl
  · exact (claim6_amended ⟨[], []⟩ "u" 1 "Transport").1 rfl

/-! ## Claim C7 — upsert idempotence and uniqueness -/

/-- Claim C7 (confirmed).  Under the database invariant (at most one rule
per `(user, keyword)` pair), upserting `(U, K)` with `C₁` and then with
`C₂` leaves exactly one `(U, K)` rule and every such rule carries `C₂`;
an upsert never pushes any pair's count above one; and a successful
correction preserves the invariant for every pair — corrections never
create duplicates. -/
theorem claim7 :
    (∀ (rules : List CategoryRuleRec) (u k c₁ c₂ : String),
      ruleCount rules u k ≤ 1 →
      ruleCount (upsertRule (upsertRule rules u k c₁) u k c₂) u k = 1 ∧
      ∀ r ∈ upsertRule (upsertRule rules u k c₁) u k c₂,
        r.user_id = u → r.keyword = k → r.category = c₂) ∧
    (∀ (rules : List CategoryRuleRec) (u k c u' k' : String),
      ruleCount rules u' k' ≤ 1 →
      ruleCount (upsertRule rules u k c) u' k' ≤ 1) ∧
    (∀ (st : DbState) (user : String) (txId : Nat) (cat : String) (st' : DbState),
      correct_category st user txId cat = .ok st' →
      ∀ u' k', ruleCount st.rules u' k' ≤ 1 → ruleCount st'.rules u' k' ≤ 1) := by
  have upsert_le : ∀ (rules : List CategoryRuleRec) (u k c u' k' : String),
      ruleCount rules u' k' ≤ 1 → ruleCount (upsertRule rules u k c) u' k' ≤ 1 := by
    intro rules u k c u' k' hle
    by_cases heq : u = u' ∧ k = k'
    · obtain ⟨rfl, rfl⟩ := heq
      rw [ruleCount_upsert_self rules u k c hle]
    · rw [ruleCount_upsert_other rules u k c u' k' heq]
      exact hle
  refine ⟨?_, upsert_le, ?_⟩
  · intro rules u k c₁ c₂ hle
    have h1 : ruleCount (upsertRule rules u k c₁) u k = 1 :=
      ruleCount_upsert_self rules u k c₁ hle
    constructor
    · exact ruleCount_upsert_self _ u k c₂ (by omega)
    · exact upsertRule_values _ u k c₂ (by omega)
  · intro st user txId cat st' h u' k' hle
    obtain ⟨tx, _, _, hst⟩ := correct_category_ok_inv h
    rw [hst]
    exact upsert_le st.rules user _ cat u' k' hle

/-- Claim C7, witness: two corrections with the same stored keyword leave a
single rule carrying the second category. -/
theorem claim7_witness :
    ruleCount (upsertRule (upsertRule [] "u" "uber trip" "Transport")
      "u" "uber trip" "Travel") "u" "uber trip" = 1 ∧
    ∀ r ∈ upsertRule (upsertRule [] "u" "uber trip" "Transport")
      "u" "uber trip" "Travel",
      r.user_id = "u" → r.keyword = "uber trip" → r.category = "Travel" :=
  claim7.1 [] "u" "uber trip" "Transport" "Travel" (by decide)

/-! ## Claim C10 — frame property of a successful correction -/

/-- Claim C10 (confirmed).  A successful correction splits the transaction
table at the first row owned by the user with the given id; that row is
replaced by a copy whose only changed fields are the category (set to the
new category) and the reviewed flag (set to `true`) — id, owner, date,
amount and both descriptions are those of the original row — and every
transaction before and after the split point (any user's) is returned
exactly as it was. -/
theorem claim10 (st : DbState) (user : String) (txId : Nat) (cat : String)
    (st' : DbState) (h : correct_category st user txId cat = .ok st') :
    ∃ pre tx post, st.txs = pre ++ tx :: post ∧
      st'.txs = pre ++ ({ tx with category := some cat, is_reviewed := true }) :: post ∧
      tx.id = txId ∧ tx.user_id = user ∧
      ∀ x ∈ pre, ¬(x.id = txId ∧ x.user_id = user) := by
  obtain ⟨tx, hfind, _, hst⟩ := correct_category_ok_inv h
  obtain ⟨pre, post, hsplit, hupd, hpre⟩ := updateTx_decomp st.txs txId user cat tx hfind
  have hp0 := List.find?_some hfind
  simp only [Bool.and_eq_true, decide_eq_true_eq] at hp0
  exact ⟨pre, tx, post, hsplit, by rw [hst]; exact hupd, hp0.1, hp0.2, hpre⟩

/-- Claim C10, witness: the frame decomposition at a concrete two-row
state — the other user's transaction is untouched, the target keeps every
field except category and reviewed flag. -/
theorem claim10_witness :
    ∃ pre tx post,
      ([⟨7, "v", ⟨2024, 5, 1, 0, 0, 0, 0, none⟩, .finite 3, some "OTHER", some "other",
          some "Dining", false⟩,
        ⟨1, "u", ⟨2025, 1, 1, 0, 0, 0, 0, none⟩, .finite 0, some "UBER TRIP 99",
          some "Uber Trip", some "Shopping", false⟩] : List StoredTx) =
        pre ++ tx :: post ∧
      ([⟨7, "v", ⟨2024, 5, 1, 0, 0, 0, 0, none⟩, .finite 3, some "OTHER", some "other",
          some "Dining", false⟩,
        ⟨1, "u", ⟨2025, 1, 1, 0, 0, 0, 0, none⟩, .finite 0, some "UBER TRIP 99",
          some "Uber Trip", some "Transport", true⟩] : List StoredTx) =
        pre ++ ({ tx with category := some "Transport", is_reviewed := true }) :: post ∧
      tx.id = 1 ∧ tx.user_id = "u" ∧
      ∀ x ∈ pre, ¬(x.id = 1 ∧ x.user_id = "u") :=
  claim10
    ⟨[⟨7, "v", ⟨2024, 5, 1, 0, 0, 0, 0, none⟩, .finite 3, some "OTHER", some "other",
        some "Dining", false⟩,
      ⟨1, "u", ⟨2025, 1, 1, 0, 0, 0, 0, none⟩, .finite 0, some "UBER TRIP 99",
        some "Uber Trip", some "Shopping", false⟩], []⟩ "u" 1 "Transport"
    ⟨[⟨7, "v", ⟨2024, 5, 1, 0, 0, 0, 0, none⟩, .finite 3, some "OTHER", some "other",
        some "Dining", false⟩,
      ⟨1, "u", ⟨2025, 1, 1, 0, 0, 0, 0, none⟩, .finite 0, some "UBER TRIP 99",
        some "Uber Trip", some "Transport", true⟩],
      [⟨"u", "uber trip", "Transport"⟩]⟩ rfl

end SmartSpend
